import Mathlib

/-!
Verification of the YOLOv8-OBB to COCO/CVAT conversion script (`main.py`).

The script is embedded shallowly:

* Pure arithmetic and string manipulation are translated to Lean functions
  (`calculate_bbox`, `os_path_join`, ...).  Python floats are modelled as
  rationals, except for the radians-to-degrees conversion whose result is the
  real number `x * (180 / pi)` (`math_degrees`).
* The effectful body of `main` is modelled as the ordered list of observable
  events (`Event`) it performs: directory creation, model loading, prediction,
  per-image file writes and the final JSON dump.  Raising an exception ends
  the trace with a raise event.
* The external detection library (ultralytics YOLO) is out of scope per the
  spec; it is modelled as an oracle `Env.predictOne` returning, for each input
  image path, the fields of the prediction result that the script reads
  (`orig_shape`, `obb.cls`, `obb.xywhr`); results come back one per input
  path, in input order, with `result.path` equal to the input path.
* The JSON document is modelled as a Python dict: an insertion-ordered
  association list with `dict.update` semantics (`dictUpdate`).
-/

namespace Yolo2Coco

/-- Char-wise ASCII lowercasing: the fragment of Python `str.lower()` that is
exercised by ASCII file names. -/
def pyLowerChar (c : Char) : Char :=
  if 'A' ≤ c ∧ c ≤ 'Z' then Char.ofNat (c.toNat + 32) else c

/-- Python `s.lower()` (ASCII fragment). -/
def pyLower (s : String) : String := String.mk (s.data.map pyLowerChar)

/-- `listLeads p s`: `p` is an initial segment of `s`. -/
def listLeads : List Char → List Char → Bool
  | [], _ => true
  | _ :: _, [] => false
  | a :: as, b :: bs => a == b && listLeads as bs

/-- Python `s.startswith(p)`. -/
def strStartsWith (s p : String) : Bool := listLeads p.data s.data

/-- Python `s.endswith(p)`. -/
def strEndsWith (s p : String) : Bool := listLeads p.data.reverse s.data.reverse

/-- `posixpath.join` for two components, as used by `os.path.join` in the
script (the script runs on POSIX paths). -/
def os_path_join (a b : String) : String :=
  if strStartsWith b "/" then b
  else if a = "" || strEndsWith a "/" then a ++ b
  else a ++ "/" ++ b

/-- Accumulator for `os_path_basename`: keeps the characters after the last
separator seen so far. -/
def basenameAux : List Char → List Char → List Char
  | acc, [] => acc
  | acc, c :: cs => if c = '/' then basenameAux [] cs else basenameAux (acc ++ [c]) cs

/-- `posixpath.basename`: everything after the last `/`. -/
def os_path_basename (p : String) : String := String.mk (basenameAux [] p.data)

/-- Split a character list at its LAST dot: `some (before, after)` with
`before ++ '.' :: after` the input, or `none` when there is no dot. -/
def rsplitDot : List Char → Option (List Char × List Char)
  | [] => none
  | c :: cs =>
    match rsplitDot cs with
    | some (l, r) => some (c :: l, r)
    | none => if c = '.' then some ([], cs) else none

/-- The root part of `posixpath.splitext` applied to a bare file name (one
with no separator, as produced by `os.path.basename`): split at the last dot,
except that leading dots do not start an extension. -/
def splitextRoot (name : String) : String :=
  match rsplitDot name.data with
  | none => name
  | some (l, _) => if l.all (fun c => c = '.') then name else String.mk l

/-- Lexicographic (code-point) comparison of char lists: the order Python
string comparison uses. -/
def charsLe : List Char → List Char → Bool
  | [], _ => true
  | _ :: _, [] => false
  | a :: as, b :: bs => if a < b then true else if b < a then false else charsLe as bs

/-- Python string comparison `a <= b`. -/
def strLeB (a b : String) : Bool := charsLe a.data b.data

/-- The image-file filter of `main`:
`image.lower().endswith((".jpg", ".jpeg", ".png"))`. -/
def hasImgExt (name : String) : Bool :=
  strEndsWith (pyLower name) ".jpg" || strEndsWith (pyLower name) ".jpeg" ||
    strEndsWith (pyLower name) ".png"

/-- Python sequence indexing `xs[i]` with negative-index wraparound;
`none` models an `IndexError`. -/
def pyGet {α : Type} (xs : List α) (i : Int) : Option α :=
  if 0 ≤ i then xs.get? i.toNat
  else if (-i).toNat ≤ xs.length then xs.get? (xs.length - (-i).toNat) else none

/-- Python `int()` on a float (truncation toward zero), floats modelled as
rationals. -/
def pyInt (q : ℚ) : Int := if 0 ≤ q then ⌊q⌋ else ⌈q⌉

/-- `math.degrees`: radians to degrees, `x * (180 / pi)`. -/
noncomputable def math_degrees (x : ℚ) : ℝ := (x : ℝ) * (180 / Real.pi)

/-- One row of the `obb.xywhr` tensor: center, size and rotation (radians) of
an oriented box.  The Python code unpacks `r_xywhr.tolist()` into exactly
these five floats. -/
structure XYWHR where
  x : ℚ
  y : ℚ
  w : ℚ
  h : ℚ
  r : ℚ
deriving DecidableEq

/-- The `attributes` sub-dict of an annotation record; `rotation` is in
degrees. -/
structure Attrs where
  occluded : Bool
  rotation : ℝ

/-- One record of the output `annotations` list, with the fields built by
`calculate_bbox` (`segm` stands for the always-empty `segmentation` list). -/
structure Annot where
  id : Int
  image_id : Int
  category_id : Int
  segm : List ℚ
  area : ℚ
  bbox : List ℚ
  iscrowd : Int
  attrs : Attrs

/-- `calculate_bbox` from `main.py`: convert one oriented box of a prediction
result into a COCO-style record.  `none` models the `IndexError` raised when
`r_labels[bbox_id-1]` is out of range. -/
noncomputable def calculate_bbox (bbox_id img_id : Int) (r_labels : List ℚ)
    (r_xywhr : XYWHR) : Option Annot :=
  match pyGet r_labels (bbox_id - 1) with
  | none => none
  | some lab =>
    some { id := bbox_id
           image_id := img_id
           category_id := pyInt lab + 1
           segm := []
           area := r_xywhr.w * r_xywhr.h
           bbox := [r_xywhr.x - r_xywhr.w / 2, r_xywhr.y - r_xywhr.h / 2,
                    r_xywhr.w, r_xywhr.h]
           iscrowd := 0
           attrs := { occluded := false, rotation := math_degrees r_xywhr.r } }

/-- One record of the fixed `licenses` list of the COCO header. -/
structure License where
  name : String
  id : Int
  url : String
deriving DecidableEq

/-- The fixed `info` record of the COCO header (`descr` stands for the JSON
key `description`). -/
structure Info where
  contributor : String
  date_created : String
  descr : String
  url : String
  version : String
  year : String
deriving DecidableEq

/-- One record of the output `categories` list. -/
structure Category where
  id : Int
  name : String
  supercategory : String
deriving DecidableEq

/-- One record of the output `images` list. -/
structure CocoImage where
  id : Int
  width : Int
  height : Int
  file_name : String
  license : Int
  flickr_url : String
  coco_url : String
  date_captured : Int
deriving DecidableEq

/-- The `result.obb` fields read by the script: the class tensor `cls` (one
float per detected box) and the box tensor `xywhr` (one row per box). -/
structure OBBData where
  cls : List ℚ
  xywhr : List XYWHR
deriving DecidableEq

/-- The fields of one prediction result that the script reads, apart from
`result.path`.  `orig_shape` is `(height, width)` of the original image. -/
structure PredOut where
  orig_shape : Int × Int
  obb : OBBData
deriving DecidableEq

/-- One prediction result, as read by the loop in `main`. -/
structure YoloResult where
  path : String
  orig_shape : Int × Int
  obb : OBBData
deriving DecidableEq

/-- Model of the external detector on one image (out of scope per the spec):
results come back one per input path, in input order, and `result.path` is the
input path. -/
def mkResult (p : String) (out : PredOut) : YoloResult :=
  { path := p, orig_shape := out.orig_shape, obb := out.obb }

/-- The values read from `constants.yaml`, typed as `main` expects them after
its validation (`labels` is a list, so the `isinstance(labels, list)` check
always passes; `save_anns_path` holds the YAML key `save_annotations_path`,
`save_txt` the key `yolo_results.save_annotation`). -/
structure Constants where
  model_path : String
  images_path : String
  save_anns_path : Option String
  labels : List String
  save_image : Bool
  save_txt : Bool
deriving DecidableEq

/-- The environment `main` runs in: the parsed configuration, a snapshot of
the filesystem (`path_exists`, `isfile`, the entries of `images_path`) and
the detector oracle. -/
structure Env where
  consts : Constants
  path_exists : String → Bool
  listdir : List String
  isfile : String → Bool
  predictOne : String → PredOut

/-- The typed value stored under one key of the output document. -/
inductive DocVal where
  | licenses (v : List License)
  | info (v : Info)
  | categories (v : List Category)
  | images (v : List CocoImage)
  | anns (v : List Annot)

/-- A Python dict with string keys, as an insertion-ordered association
list. -/
def PyDict := List (String × DocVal)

/-- Store one key: replace in place when present, append when absent
(Python dict assignment). -/
def dictSet (d : List (String × DocVal)) (k : String) (v : DocVal) :
    List (String × DocVal) :=
  match d with
  | [] => [(k, v)]
  | (k₀, v₀) :: rest => if k₀ = k then (k, v) :: rest else (k₀, v₀) :: dictSet rest k v

/-- Python `d.update(kvs)`: store the pairs left to right. -/
def dictUpdate (d : List (String × DocVal)) (kvs : List (String × DocVal)) :
    List (String × DocVal) :=
  kvs.foldl (fun acc kv => dictSet acc kv.1 kv.2) d

/-- Python `d.get(k)`: the value under the first (only) occurrence of `k`. -/
def dictGet (d : List (String × DocVal)) (k : String) : Option DocVal :=
  match d with
  | [] => none
  | (k₀, v₀) :: rest => if k₀ = k then some v₀ else dictGet rest k

/-- The `categories` list built by `main`:
`[{"id": i, "name": label, "supercategory": ""} for i, label in enumerate(labels, start=1)]`. -/
def mkCategories (labels : List String) : List Category :=
  labels.enum.map (fun p => { id := (p.1 : Int) + 1, name := p.2, supercategory := "" })

/-- The output document of `main`: header, categories, then the images and
records accumulated by the result loop, added by successive `dict.update`
calls. -/
def buildDoc (labels : List String) (imgs : List CocoImage) (anns : List Annot) :
    List (String × DocVal) :=
  let data := dictUpdate []
    [("licenses", DocVal.licenses [{ name := "", id := 0, url := "" }]),
     ("info", DocVal.info { contributor := "", date_created := "", descr := "",
                            url := "", version := "", year := "" })]
  let data := dictUpdate data [("categories", DocVal.categories (mkCategories labels))]
  let data := dictUpdate data [("images", DocVal.images imgs)]
  dictUpdate data [("annotations", DocVal.anns anns)]

/-- The observable events of a run of `main`, in program order. -/
inductive Event where
  | raiseFNF (msg : String)
  | raiseIndex
  | makedirs (p : String)
  | loadModel (p : String)
  | predict (paths : List String)
  | saveImage (p : String)
  | saveTxt (p : String)
  | writeJson (p : String) (doc : List (String × DocVal))

/-- Whether an event is a raised exception. -/
def Event.isRaise : Event → Bool
  | .raiseFNF _ => true
  | .raiseIndex => true
  | _ => false

/-- Whether an event creates or writes a file or directory. -/
def Event.isWrite : Event → Bool
  | .makedirs _ => true
  | .saveImage _ => true
  | .saveTxt _ => true
  | .writeJson _ _ => true
  | _ => false

/-- A run completed without raising. -/
def completedOk (t : List Event) : Bool := t.all (fun e => !e.isRaise)

/-- The documents dumped to JSON files during a run. -/
def writtenDocs (t : List Event) : List (List (String × DocVal)) :=
  t.filterMap (fun e => match e with | .writeJson _ d => some d | _ => none)

/-- After validation the save path is unconditionally rebound to
`os.path.curdir`, so the three output locations are constants. -/
def save_image_path : String := os_path_join (os_path_join "." "predictions") "images"

/-- The per-image label-file directory, `./predictions/annotations`. -/
def save_txt_file_path : String :=
  os_path_join (os_path_join "." "predictions") "annotations"

/-- The JSON output path, `./instances.json`. -/
def json_file_path : String := os_path_join "." "instances.json"

/-- The inner loop of `main` over `result.obb.xywhr`, starting from bbox id
`id₀`; `none` models the `IndexError` escaping from `calculate_bbox`. -/
noncomputable def annotsGo (cls : List ℚ) (img_id : Int) :
    Int → List XYWHR → Option (List Annot)
  | _, [] => some []
  | id₀, box :: rest =>
    match calculate_bbox id₀ img_id cls box with
    | none => none
    | some a =>
      match annotsGo cls img_id (id₀ + 1) rest with
      | none => none
      | some as => some (a :: as)

/-- The save-image / save-txt events emitted for one result. -/
def resultEvents (c : Constants) (r : YoloResult) : List Event :=
  (if c.save_image then
     [Event.saveImage (os_path_join save_image_path (os_path_basename r.path))]
   else []) ++
  (if c.save_txt then
     [Event.saveTxt (os_path_join save_txt_file_path
        (splitextRoot (os_path_basename r.path) ++ ".txt"))]
   else [])

/-- The image record appended for the `i`-th result (1-based). -/
def mkImage (i : Int) (r : YoloResult) : CocoImage :=
  { id := i, width := r.orig_shape.2, height := r.orig_shape.1,
    file_name := os_path_basename r.path, license := 0, flickr_url := "",
    coco_url := "", date_captured := 0 }

/-- The result loop of `main`, from image id `i`: the events it emits, the
accumulated image and box records, and whether it aborted with an
`IndexError`. -/
noncomputable def resultsLoop (c : Constants) :
    Int → List YoloResult → List Event × List CocoImage × List Annot × Bool
  | _, [] => ([], [], [], false)
  | i, r :: rest =>
    let evs := resultEvents c r
    let img := mkImage i r
    match annotsGo r.obb.cls i 1 r.obb.xywhr with
    | none => (evs ++ [Event.raiseIndex], [img], [], true)
    | some as =>
      let tl := resultsLoop c (i + 1) rest
      (evs ++ tl.1, img :: tl.2.1, as ++ tl.2.2.1, tl.2.2.2)

/-- The image selection of `main`: regular files directly inside
`images_path` whose name passes the extension filter, joined to the
directory, then sorted. -/
def images_paths (env : Env) : List String :=
  List.insertionSort (fun a b : String => strLeB a b = true)
    (env.listdir.filterMap (fun image =>
      if env.isfile (os_path_join env.consts.images_path image) && hasImgExt image
      then some (os_path_join env.consts.images_path image) else none))

/-- The prediction results, one per selected image path, in order. -/
def results (env : Env) : List YoloResult :=
  (images_paths env).map (fun p => mkResult p (env.predictOne p))

/-- The result loop applied to the run's results, from image id 1. -/
noncomputable def mainLoop (env : Env) :
    List Event × List CocoImage × List Annot × Bool :=
  resultsLoop env.consts 1 (results env)

/-- The body of `main` after the three existence checks pass: directory
creation, model load, prediction, the result loop and — when no exception
escaped the loop — the JSON dump. -/
noncomputable def mainBody (env : Env) : List Event :=
  let c := env.consts
  let mkdirEvs :=
    (if c.save_image && !(env.path_exists save_image_path) then
       [Event.makedirs save_image_path] else []) ++
    (if c.save_txt && !(env.path_exists save_txt_file_path) then
       [Event.makedirs save_txt_file_path] else [])
  let lp := mainLoop env
  mkdirEvs ++ [Event.loadModel c.model_path, Event.predict (images_paths env)] ++
    lp.1 ++
    (if lp.2.2.2 then [] else
      [Event.writeJson json_file_path (buildDoc c.labels lp.2.1 lp.2.2.1)])

/-- `main` from `main.py` as an event trace: the three `FileNotFoundError`
checks in program order, then the body. -/
noncomputable def main (env : Env) : List Event :=
  let c := env.consts
  if !(env.path_exists c.model_path) then
    [Event.raiseFNF ("Model path not found: " ++ c.model_path ++ " was not found")]
  else if !(env.path_exists c.images_path) then
    [Event.raiseFNF ("Images path not found: " ++ c.images_path ++ " was not found")]
  else
    match c.save_anns_path with
    | some p =>
      if !(env.path_exists p) then
        [Event.raiseFNF ("Save annotations path not found: " ++ p ++ " was not found")]
      else mainBody env
    | none => mainBody env

/-! ### The sort relation is the lexicographic string order -/

theorem charsLe_iff_not_lex (as : List Char) :
    ∀ bs : List Char, charsLe as bs = true ↔ ¬ List.Lex (· < ·) bs as := by
  induction as with
  | nil =>
    intro bs
    simp only [charsLe, true_iff]
    intro h
    cases h
  | cons a as ih =>
    intro bs
    cases bs with
    | nil =>
      simp only [charsLe, Bool.false_eq_true, false_iff, not_not]
      exact List.Lex.nil
    | cons b bs =>
      simp only [charsLe]
      rcases lt_trichotomy a b with hab | hab | hab
      · simp only [if_pos hab, true_iff]
        intro h
        cases h with
        | cons h₁ => exact absurd hab (lt_irrefl _)
        | rel h₁ => exact absurd h₁ (lt_asymm hab)
      · subst hab
        rw [if_neg (lt_irrefl a), if_neg (lt_irrefl a), ih bs]
        constructor
        · intro h hlex
          cases hlex with
          | cons h₁ => exact h h₁
          | rel h₁ => exact absurd h₁ (lt_irrefl a)
        · intro h hlex
          exact h (List.Lex.cons hlex)
      · rw [if_neg (lt_asymm hab), if_pos hab]
        simp only [Bool.false_eq_true, false_iff, not_not]
        exact List.Lex.rel hab

theorem charsLe_iff_le (as bs : List Char) : charsLe as bs = true ↔ as ≤ bs := by
  rw [charsLe_iff_not_lex]
  constructor
  · intro h
    exact not_lt.mp (fun hlt => h hlt)
  · intro h hlex
    exact absurd (show bs < as from hlex) (not_lt.mpr h)

theorem strLeB_iff (a b : String) : strLeB a b = true ↔ a ≤ b := by
  rw [String.le_iff_toList_le]
  exact charsLe_iff_le a.data b.data

instance strLeB_total : IsTotal String (fun a b => strLeB a b = true) := by
  constructor
  intro a b
  rw [strLeB_iff, strLeB_iff]
  exact le_total a b

instance strLeB_trans : IsTrans String (fun a b => strLeB a b = true) := by
  constructor
  intro a b c
  rw [strLeB_iff, strLeB_iff, strLeB_iff]
  exact fun h₁ h₂ => le_trans h₁ h₂

/-! ### Helper definitions used by the statements -/

/-- The `categories` list stored in a document. -/
def catsOfDoc (d : List (String × DocVal)) : List Category :=
  match dictGet d "categories" with
  | some (DocVal.categories v) => v
  | _ => []

/-- The `images` list stored in a document. -/
def imgsOfDoc (d : List (String × DocVal)) : List CocoImage :=
  match dictGet d "images" with
  | some (DocVal.images v) => v
  | _ => []

/-- The `annotations` list stored in a document. -/
def annsOfDoc (d : List (String × DocVal)) : List Annot :=
  match dictGet d "annotations" with
  | some (DocVal.anns v) => v
  | _ => []

/-- The three existence checks of `main`, conjoined. -/
def mainOkChecks (env : Env) : Bool :=
  env.path_exists env.consts.model_path &&
  env.path_exists env.consts.images_path &&
  (match env.consts.save_anns_path with
   | some p => env.path_exists p
   | none => true)

/-- The image records the loop builds for `rs`, starting at image id `i`. -/
def mkImagesFrom : Int → List YoloResult → List CocoImage
  | _, [] => []
  | i, r :: rest => mkImage i r :: mkImagesFrom (i + 1) rest

/-- The box records the loop accumulates for `rs`, starting at image id `i`
(meaningful when every `annotsGo` call succeeds). -/
noncomputable def annsFrom : Int → List YoloResult → List Annot
  | _, [] => []
  | i, r :: rest =>
    (annotsGo r.obb.cls i 1 r.obb.xywhr).getD [] ++ annsFrom (i + 1) rest

/-! ### Facts about the document dictionary -/

theorem buildDoc_eq (labels : List String) (imgs : List CocoImage) (anns : List Annot) :
    buildDoc labels imgs anns =
      [("licenses", DocVal.licenses [{ name := "", id := 0, url := "" }]),
       ("info", DocVal.info { contributor := "", date_created := "", descr := "",
                              url := "", version := "", year := "" }),
       ("categories", DocVal.categories (mkCategories labels)),
       ("images", DocVal.images imgs),
       ("annotations", DocVal.anns anns)] := rfl

theorem catsOfDoc_buildDoc (labels : List String) (imgs : List CocoImage)
    (anns : List Annot) : catsOfDoc (buildDoc labels imgs anns) = mkCategories labels := rfl

theorem imgsOfDoc_buildDoc (labels : List String) (imgs : List CocoImage)
    (anns : List Annot) : imgsOfDoc (buildDoc labels imgs anns) = imgs := rfl

theorem annsOfDoc_buildDoc (labels : List String) (imgs : List CocoImage)
    (anns : List Annot) : annsOfDoc (buildDoc labels imgs anns) = anns := rfl

/-! ### Facts about the box loop -/

theorem annotsGo_some (cls : List ℚ) (imgId : Int) :
    ∀ (boxes : List XYWHR) (k : Int) (as : List Annot),
      annotsGo cls imgId k boxes = some as →
      as.length = boxes.length ∧
        ∀ j (hj : j < as.length),
          (as.get ⟨j, hj⟩).id = k + j ∧ (as.get ⟨j, hj⟩).image_id = imgId := by
  intro boxes
  induction boxes with
  | nil =>
    intro k as h
    simp only [annotsGo, Option.some.injEq] at h
    subst h
    exact ⟨rfl, fun j hj => absurd hj (Nat.not_lt_zero j)⟩
  | cons box rest ih =>
    intro k as h
    simp only [annotsGo] at h
    cases hcb : calculate_bbox k imgId cls box with
    | none => rw [hcb] at h; exact absurd h (by simp)
    | some a =>
      rw [hcb] at h
      cases hgo : annotsGo cls imgId (k + 1) rest with
      | none => rw [hgo] at h; exact absurd h (by simp)
      | some as' =>
        rw [hgo] at h
        simp only [Option.some.injEq] at h
        subst h
        have hfacts := ih (k + 1) as' hgo
        have ha : a.id = k ∧ a.image_id = imgId := by
          simp only [calculate_bbox] at hcb
          cases hpg : pyGet cls (k - 1) with
          | none => rw [hpg] at hcb; exact absurd hcb (by simp)
          | some lab =>
            rw [hpg] at hcb
            simp only [Option.some.injEq] at hcb
            subst hcb
            exact ⟨rfl, rfl⟩
        constructor
        · simp [hfacts.1]
        · intro j hj
          cases j with
          | zero => simpa using ha
          | succ j' =>
            have hj' : j' < as'.length := by
              simp only [List.length_cons] at hj
              omega
            have := hfacts.2 j' hj'
            constructor
            · show (as'.get ⟨j', hj'⟩).id = k + (j' + 1 : ℕ)
              rw [this.1]
              push_cast
              ring
            · exact this.2

theorem annotsGo_ids (cls : List ℚ) (imgId : Int) (boxes : List XYWHR) (k : Int)
    (as : List Annot) (h : annotsGo cls imgId k boxes = some as) :
    as.map Annot.id = (List.range boxes.length).map (fun j : ℕ => k + (j : Int)) := by
  have hfacts := annotsGo_some cls imgId boxes k as h
  apply List.ext_get
  · simp [hfacts.1]
  · intro j h₁ h₂
    rw [List.get_map, List.get_map, (hfacts.2 j (by simpa using h₁)).1, List.get_range]

theorem annotsGo_isSome (cls : List ℚ) (imgId : Int) :
    ∀ (boxes : List XYWHR) (k : Int), 1 ≤ k →
      (k - 1).toNat + boxes.length ≤ cls.length →
      (annotsGo cls imgId k boxes).isSome = true := by
  intro boxes
  induction boxes with
  | nil => intro k _ _; simp [annotsGo]
  | cons box rest ih =>
    intro k hk hlen
    have hidx : (k - 1).toNat < cls.length := by
      simp only [List.length_cons] at hlen
      omega
    have hpg : (pyGet cls (k - 1)).isSome = true := by
      simp only [pyGet, if_pos (by omega : (0:Int) ≤ k - 1)]
      rw [List.get?_eq_get hidx]
      rfl
    cases hpg' : pyGet cls (k - 1) with
    | none => rw [hpg'] at hpg; simp at hpg
    | some lab =>
      have hrest := ih (k + 1) (by omega) (by simp only [List.length_cons] at hlen; omega)
      cases hgo : annotsGo cls imgId (k + 1) rest with
      | none => rw [hgo] at hrest; simp at hrest
      | some as' =>
        simp [annotsGo, calculate_bbox, hpg', hgo]

theorem annotsGo_cat (cls : List ℚ) (imgId : Int) :
    ∀ (boxes : List XYWHR) (k : Int) (as : List Annot), 1 ≤ k →
      annotsGo cls imgId k boxes = some as →
      ∀ j (hj : j < as.length),
        ∃ c, cls.get? ((k - 1).toNat + j) = some c ∧
          (as.get ⟨j, hj⟩).category_id = pyInt c + 1 := by
  intro boxes
  induction boxes with
  | nil =>
    intro k as _ h
    simp only [annotsGo, Option.some.injEq] at h
    subst h
    intro j hj
    exact absurd hj (Nat.not_lt_zero j)
  | cons box rest ih =>
    intro k as hk h
    simp only [annotsGo] at h
    cases hcb : calculate_bbox k imgId cls box with
    | none => rw [hcb] at h; exact absurd h (by simp)
    | some a =>
      rw [hcb] at h
      cases hgo : annotsGo cls imgId (k + 1) rest with
      | none => rw [hgo] at h; exact absurd h (by simp)
      | some as' =>
        rw [hgo] at h
        simp only [Option.some.injEq] at h
        subst h
        intro j hj
        cases j with
        | zero =>
          simp only [calculate_bbox] at hcb
          cases hpg : pyGet cls (k - 1) with
          | none => rw [hpg] at hcb; exact absurd hcb (by simp)
          | some lab =>
            rw [hpg] at hcb
            simp only [Option.some.injEq] at hcb
            subst hcb
            refine ⟨lab, ?_, rfl⟩
            simpa only [pyGet, if_pos (by omega : (0:Int) ≤ k - 1), Nat.add_zero] using hpg
        | succ j' =>
          have hj' : j' < as'.length := by
            simp only [List.length_cons] at hj
            omega
          obtain ⟨c, hc₁, hc₂⟩ := ih (k + 1) as' (by omega) hgo j' hj'
          refine ⟨c, ?_, hc₂⟩
          have : (k + 1 - 1).toNat + j' = (k - 1).toNat + (j' + 1) := by omega
          rw [← this]
          exact hc₁

/-! ### Facts about the result loop -/

theorem resultEvents_kinds (c : Constants) (r : YoloResult) (e : Event)
    (h : e ∈ resultEvents c r) :
    (∃ p, e = Event.saveImage p) ∨ (∃ p, e = Event.saveTxt p) := by
  simp only [resultEvents] at h
  rcases List.mem_append.mp h with h₁ | h₁ <;> split at h₁ <;>
    simp only [List.mem_singleton, List.not_mem_nil] at h₁
  · exact Or.inl ⟨_, h₁⟩
  · exact Or.inr ⟨_, h₁⟩

theorem resultEvents_no_raise (c : Constants) (r : YoloResult) (e : Event)
    (h : e ∈ resultEvents c r) : e.isRaise = false := by
  rcases resultEvents_kinds c r e h with ⟨p, hp⟩ | ⟨p, hp⟩ <;> subst hp <;> rfl

theorem resultEvents_saveImage_flag (c : Constants) (r : YoloResult) (p : String)
    (h : Event.saveImage p ∈ resultEvents c r) : c.save_image = true := by
  simp only [resultEvents] at h
  rcases List.mem_append.mp h with h₁ | h₁ <;> split at h₁ <;>
    simp only [List.mem_singleton, List.not_mem_nil] at h₁
  · assumption
  · exact absurd h₁ (by simp)

theorem resultEvents_saveTxt_flag (c : Constants) (r : YoloResult) (p : String)
    (h : Event.saveTxt p ∈ resultEvents c r) : c.save_txt = true := by
  simp only [resultEvents] at h
  rcases List.mem_append.mp h with h₁ | h₁ <;> split at h₁ <;>
    simp only [List.mem_singleton, List.not_mem_nil] at h₁
  · exact absurd h₁ (by simp)
  · assumption

theorem resultEvents_mem_saveImage (c : Constants) (r : YoloResult)
    (h : c.save_image = true) :
    Event.saveImage (os_path_join save_image_path (os_path_basename r.path)) ∈
      resultEvents c r := by
  simp [resultEvents, h]

theorem resultEvents_mem_saveTxt (c : Constants) (r : YoloResult)
    (h : c.save_txt = true) :
    Event.saveTxt (os_path_join save_txt_file_path
      (splitextRoot (os_path_basename r.path) ++ ".txt")) ∈ resultEvents c r := by
  simp [resultEvents, h]

theorem resultsLoop_cons_none (c : Constants) (i : Int) (r : YoloResult)
    (rest : List YoloResult) (h : annotsGo r.obb.cls i 1 r.obb.xywhr = none) :
    resultsLoop c i (r :: rest) =
      (resultEvents c r ++ [Event.raiseIndex], [mkImage i r], [], true) := by
  simp [resultsLoop, h]

theorem resultsLoop_cons_some (c : Constants) (i : Int) (r : YoloResult)
    (rest : List YoloResult) (as : List Annot)
    (h : annotsGo r.obb.cls i 1 r.obb.xywhr = some as) :
    resultsLoop c i (r :: rest) =
      (resultEvents c r ++ (resultsLoop c (i + 1) rest).1,
       mkImage i r :: (resultsLoop c (i + 1) rest).2.1,
       as ++ (resultsLoop c (i + 1) rest).2.2.1,
       (resultsLoop c (i + 1) rest).2.2.2) := by
  simp [resultsLoop, h]

theorem loop_events_kinds (c : Constants) :
    ∀ (rs : List YoloResult) (i : Int) (e : Event), e ∈ (resultsLoop c i rs).1 →
      (∃ p, e = Event.saveImage p) ∨ (∃ p, e = Event.saveTxt p) ∨ e = Event.raiseIndex := by
  intro rs
  induction rs with
  | nil => intro i e h; simp [resultsLoop] at h
  | cons r rest ih =>
    intro i e h
    cases hgo : annotsGo r.obb.cls i 1 r.obb.xywhr with
    | none =>
      rw [resultsLoop_cons_none c i r rest hgo] at h
      rcases List.mem_append.mp h with h₁ | h₁
      · rcases resultEvents_kinds c r e h₁ with h' | h'
        · exact Or.inl h'
        · exact Or.inr (Or.inl h')
      · simp only [List.mem_singleton] at h₁
        exact Or.inr (Or.inr h₁)
    | some as =>
      rw [resultsLoop_cons_some c i r rest as hgo] at h
      rcases List.mem_append.mp h with h₁ | h₁
      · rcases resultEvents_kinds c r e h₁ with h' | h'
        · exact Or.inl h'
        · exact Or.inr (Or.inl h')
      · exact ih (i + 1) e h₁

theorem loop_raised_mem (c : Constants) :
    ∀ (rs : List YoloResult) (i : Int), (resultsLoop c i rs).2.2.2 = true →
      Event.raiseIndex ∈ (resultsLoop c i rs).1 := by
  intro rs
  induction rs with
  | nil => intro i h; simp [resultsLoop] at h
  | cons r rest ih =>
    intro i h
    cases hgo : annotsGo r.obb.cls i 1 r.obb.xywhr with
    | none =>
      rw [resultsLoop_cons_none c i r rest hgo]
      simp
    | some as =>
      rw [resultsLoop_cons_some c i r rest as hgo] at h ⊢
      exact List.mem_append.mpr (Or.inr (ih (i + 1) h))

theorem loop_no_raise (c : Constants) :
    ∀ (rs : List YoloResult) (i : Int), (resultsLoop c i rs).2.2.2 = false →
      ∀ e ∈ (resultsLoop c i rs).1, e.isRaise = false := by
  intro rs
  induction rs with
  | nil => intro i _ e h; simp [resultsLoop] at h
  | cons r rest ih =>
    intro i hr e h
    cases hgo : annotsGo r.obb.cls i 1 r.obb.xywhr with
    | none =>
      rw [resultsLoop_cons_none c i r rest hgo] at hr
      simp at hr
    | some as =>
      rw [resultsLoop_cons_some c i r rest as hgo] at hr h
      rcases List.mem_append.mp h with h₁ | h₁
      · exact resultEvents_no_raise c r e h₁
      · exact ih (i + 1) hr e h₁

theorem loop_imgs (c : Constants) :
    ∀ (rs : List YoloResult) (i : Int), (resultsLoop c i rs).2.2.2 = false →
      (resultsLoop c i rs).2.1 = mkImagesFrom i rs := by
  intro rs
  induction rs with
  | nil => intro i _; simp [resultsLoop, mkImagesFrom]
  | cons r rest ih =>
    intro i hr
    cases hgo : annotsGo r.obb.cls i 1 r.obb.xywhr with
    | none =>
      rw [resultsLoop_cons_none c i r rest hgo] at hr
      simp at hr
    | some as =>
      rw [resultsLoop_cons_some c i r rest as hgo] at hr ⊢
      simp only [mkImagesFrom, List.cons.injEq]
      exact ⟨trivial, ih (i + 1) hr⟩

theorem loop_anns (c : Constants) :
    ∀ (rs : List YoloResult) (i : Int), (resultsLoop c i rs).2.2.2 = false →
      (resultsLoop c i rs).2.2.1 = annsFrom i rs := by
  intro rs
  induction rs with
  | nil => intro i _; simp [resultsLoop, annsFrom]
  | cons r rest ih =>
    intro i hr
    cases hgo : annotsGo r.obb.cls i 1 r.obb.xywhr with
    | none =>
      rw [resultsLoop_cons_none c i r rest hgo] at hr
      simp at hr
    | some as =>
      rw [resultsLoop_cons_some c i r rest as hgo] at hr ⊢
      simp only [annsFrom, hgo, Option.getD_some]
      exact congrArg (as ++ ·) (ih (i + 1) hr)

theorem loop_success (c : Constants) :
    ∀ (rs : List YoloResult) (i : Int), (resultsLoop c i rs).2.2.2 = false →
      ∀ j (hj : j < rs.length),
        (annotsGo (rs.get ⟨j, hj⟩).obb.cls (i + j) 1 (rs.get ⟨j, hj⟩).obb.xywhr).isSome
          = true := by
  intro rs
  induction rs with
  | nil => intro i _ j hj; exact absurd hj (Nat.not_lt_zero j)
  | cons r rest ih =>
    intro i hr j hj
    cases hgo : annotsGo r.obb.cls i 1 r.obb.xywhr with
    | none =>
      rw [resultsLoop_cons_none c i r rest hgo] at hr
      simp at hr
    | some as =>
      rw [resultsLoop_cons_some c i r rest as hgo] at hr
      cases j with
      | zero =>
        simp only [List.get, Nat.cast_zero, add_zero]
        rw [hgo]
        rfl
      | succ j' =>
        have hj' : j' < rest.length := by
          simp only [List.length_cons] at hj
          omega
        have := ih (i + 1) hr j' hj'
        have harith : (i + 1) + (j' : Int) = i + ((j' + 1 : ℕ) : Int) := by
          push_cast
          ring
        rw [harith] at this
        exact this

theorem loop_saveImage_flag (c : Constants) :
    ∀ (rs : List YoloResult) (i : Int) (p : String),
      Event.saveImage p ∈ (resultsLoop c i rs).1 → c.save_image = true := by
  intro rs
  induction rs with
  | nil => intro i p h; simp [resultsLoop] at h
  | cons r rest ih =>
    intro i p h
    cases hgo : annotsGo r.obb.cls i 1 r.obb.xywhr with
    | none =>
      rw [resultsLoop_cons_none c i r rest hgo] at h
      rcases List.mem_append.mp h with h₁ | h₁
      · exact resultEvents_saveImage_flag c r p h₁
      · simp at h₁
    | some as =>
      rw [resultsLoop_cons_some c i r rest as hgo] at h
      rcases List.mem_append.mp h with h₁ | h₁
      · exact resultEvents_saveImage_flag c r p h₁
      · exact ih (i + 1) p h₁

theorem loop_saveTxt_flag (c : Constants) :
    ∀ (rs : List YoloResult) (i : Int) (p : String),
      Event.saveTxt p ∈ (resultsLoop c i rs).1 → c.save_txt = true := by
  intro rs
  induction rs with
  | nil => intro i p h; simp [resultsLoop] at h
  | cons r rest ih =>
    intro i p h
    cases hgo : annotsGo r.obb.cls i 1 r.obb.xywhr with
    | none =>
      rw [resultsLoop_cons_none c i r rest hgo] at h
      rcases List.mem_append.mp h with h₁ | h₁
      · exact resultEvents_saveTxt_flag c r p h₁
      · simp at h₁
    | some as =>
      rw [resultsLoop_cons_some c i r rest as hgo] at h
      rcases List.mem_append.mp h with h₁ | h₁
      · exact resultEvents_saveTxt_flag c r p h₁
      · exact ih (i + 1) p h₁

theorem loop_mem_saveImage (c : Constants) (hc : c.save_image = true) :
    ∀ (rs : List YoloResult) (i : Int) (r : YoloResult), r ∈ rs →
      (resultsLoop c i rs).2.2.2 = false →
      Event.saveImage (os_path_join save_image_path (os_path_basename r.path)) ∈
        (resultsLoop c i rs).1 := by
  intro rs
  induction rs with
  | nil => intro i r h; simp at h
  | cons r₀ rest ih =>
    intro i r hmem hr
    cases hgo : annotsGo r₀.obb.cls i 1 r₀.obb.xywhr with
    | none =>
      rw [resultsLoop_cons_none c i r₀ rest hgo] at hr
      simp at hr
    | some as =>
      rw [resultsLoop_cons_some c i r₀ rest as hgo] at hr ⊢
      rcases List.mem_cons.mp hmem with h₁ | h₁
      · subst h₁
        exact List.mem_append.mpr (Or.inl (resultEvents_mem_saveImage c r hc))
      · exact List.mem_append.mpr (Or.inr (ih (i + 1) r h₁ hr))

theorem loop_mem_saveTxt (c : Constants) (hc : c.save_txt = true) :
    ∀ (rs : List YoloResult) (i : Int) (r : YoloResult), r ∈ rs →
      (resultsLoop c i rs).2.2.2 = false →
      Event.saveTxt (os_path_join save_txt_file_path
        (splitextRoot (os_path_basename r.path) ++ ".txt")) ∈
        (resultsLoop c i rs).1 := by
  intro rs
  induction rs with
  | nil => intro i r h; simp at h
  | cons r₀ rest ih =>
    intro i r hmem hr
    cases hgo : annotsGo r₀.obb.cls i 1 r₀.obb.xywhr with
    | none =>
      rw [resultsLoop_cons_none c i r₀ rest hgo] at hr
      simp at hr
    | some as =>
      rw [resultsLoop_cons_some c i r₀ rest as hgo] at hr ⊢
      rcases List.mem_cons.mp hmem with h₁ | h₁
      · subst h₁
        exact List.mem_append.mpr (Or.inl (resultEvents_mem_saveTxt c r hc))
      · exact List.mem_append.mpr (Or.inr (ih (i + 1) r h₁ hr))

/-! ### Facts about the main trace -/

theorem main_model_missing (env : Env)
    (h : env.path_exists env.consts.model_path = false) :
    main env = [Event.raiseFNF
      ("Model path not found: " ++ env.consts.model_path ++ " was not found")] := by
  simp [main, h]

theorem main_images_missing (env : Env)
    (h₁ : env.path_exists env.consts.model_path = true)
    (h₂ : env.path_exists env.consts.images_path = false) :
    main env = [Event.raiseFNF
      ("Images path not found: " ++ env.consts.images_path ++ " was not found")] := by
  simp [main, h₁, h₂]

theorem main_raise_cases (env : Env) (h : mainOkChecks env = false) :
    ∃ m, main env = [Event.raiseFNF m] := by
  simp only [mainOkChecks, Bool.and_eq_false_iff] at h
  cases h₁ : env.path_exists env.consts.model_path with
  | false => exact ⟨_, main_model_missing env h₁⟩
  | true =>
    cases h₂ : env.path_exists env.consts.images_path with
    | false => exact ⟨_, main_images_missing env h₁ h₂⟩
    | true =>
      cases hs : env.consts.save_anns_path with
      | none =>
        rw [h₁, h₂, hs] at h
        simp at h
      | some sp =>
        cases h₃ : env.path_exists sp with
        | true =>
          rw [h₁, h₂, hs] at h
          rcases h with (h | h) | h
          · exact absurd h (by simp)
          · exact absurd h (by simp)
          · have h' : env.path_exists sp = false := h
            rw [h₃] at h'
            exact absurd h' (by simp)
        | false =>
          refine ⟨"Save annotations path not found: " ++ sp ++ " was not found", ?_⟩
          simp [main, h₁, h₂, hs, h₃]

theorem main_eq_body (env : Env) (h : mainOkChecks env = true) :
    main env = mainBody env := by
  simp only [mainOkChecks, Bool.and_eq_true] at h
  obtain ⟨⟨h₁, h₂⟩, h₃⟩ := h
  cases hs : env.consts.save_anns_path with
  | none => simp [main, h₁, h₂, hs]
  | some sp =>
    rw [hs] at h₃
    have h₃' : env.path_exists sp = true := h₃
    simp [main, h₁, h₂, hs, h₃']

theorem completedOk_iff_mem (t : List Event) :
    completedOk t = true ↔ ∀ e ∈ t, e.isRaise = false := by
  simp [completedOk, List.all_eq_true, Bool.not_eq_true']

theorem writeJson_mem_iff (env : Env) (p : String) (d : List (String × DocVal)) :
    Event.writeJson p d ∈ main env ↔
      mainOkChecks env = true ∧ (mainLoop env).2.2.2 = false ∧
        p = json_file_path ∧
        d = buildDoc env.consts.labels (mainLoop env).2.1 (mainLoop env).2.2.1 := by
  constructor
  · intro h
    cases hok : mainOkChecks env with
    | false =>
      obtain ⟨m, hm⟩ := main_raise_cases env hok
      rw [hm] at h
      simp at h
    | true =>
      rw [main_eq_body env hok] at h
      refine ⟨rfl, ?_⟩
      simp only [mainBody, List.mem_append] at h
      rcases h with (((h | h) | h) | h) | h
      · split at h <;> simp at h
      · split at h <;> simp at h
      · simp at h
      · rcases loop_events_kinds env.consts (results env) 1 (Event.writeJson p d) h with
          ⟨q, hq⟩ | ⟨q, hq⟩ | hq <;> simp at hq
      · split at h
        · simp at h
        · simp only [List.mem_singleton, Event.writeJson.injEq] at h
          rename_i hraised
          exact ⟨Bool.not_eq_true _ ▸ (by simpa using hraised), h.1, h.2⟩
  · intro ⟨hok, hr, hp, hd⟩
    subst hp
    subst hd
    rw [main_eq_body env hok]
    simp only [mainBody, List.mem_append]
    refine Or.inr ?_
    rw [show (mainLoop env).2.2.2 = false from hr]
    simp

theorem completedOk_main_iff (env : Env) :
    completedOk (main env) = true ↔
      mainOkChecks env = true ∧ (mainLoop env).2.2.2 = false := by
  rw [completedOk_iff_mem]
  constructor
  · intro h
    cases hok : mainOkChecks env with
    | false =>
      obtain ⟨m, hm⟩ := main_raise_cases env hok
      have := h (Event.raiseFNF m) (by rw [hm]; exact List.mem_singleton_self _)
      simp [Event.isRaise] at this
    | true =>
      refine ⟨rfl, ?_⟩
      cases hr : (mainLoop env).2.2.2 with
      | false => rfl
      | true =>
        have hmem := loop_raised_mem env.consts (results env) 1 hr
        have hmem' : Event.raiseIndex ∈ main env := by
          rw [main_eq_body env hok]
          simp only [mainBody, List.mem_append]
          exact Or.inl (Or.inr hmem)
        have := h _ hmem'
        simp [Event.isRaise] at this
  · intro ⟨hok, hr⟩ e he
    rw [main_eq_body env hok] at he
    simp only [mainBody, List.mem_append] at he
    rcases he with (((he | he) | he) | he) | he
    · split at he <;> simp at he
      subst he
      rfl
    · split at he <;> simp at he
      subst he
      rfl
    · rcases List.mem_cons.mp he with he | he
      · subst he
        rfl
      · simp only [List.mem_singleton] at he
        subst he
        rfl
    · exact loop_no_raise env.consts (results env) 1 hr e he
    · split at he
      · simp at he
      · simp only [List.mem_singleton] at he
        subst he
        rfl

/-! ### Facts about the generated lists -/

theorem mkImagesFrom_length : ∀ (rs : List YoloResult) (i : Int),
    (mkImagesFrom i rs).length = rs.length := by
  intro rs
  induction rs with
  | nil => intro i; rfl
  | cons r rest ih => intro i; simp [mkImagesFrom, ih]

theorem mkImagesFrom_get? : ∀ (rs : List YoloResult) (i : Int) (j : ℕ),
    (mkImagesFrom i rs).get? j = (rs.get? j).map (fun r => mkImage (i + (j : Int)) r) := by
  intro rs
  induction rs with
  | nil => intro i j; simp [mkImagesFrom]
  | cons r rest ih =>
    intro i j
    cases j with
    | zero => simp [mkImagesFrom]
    | succ j' =>
      show (mkImagesFrom (i + 1) rest).get? j' = _
      rw [ih (i + 1) j']
      have harith : (i + 1) + (j' : Int) = i + ((j' + 1 : ℕ) : Int) := by
        push_cast
        ring
      rw [harith]
      rfl

theorem mkImagesFrom_ids : ∀ (rs : List YoloResult) (i : Int),
    (mkImagesFrom i rs).map CocoImage.id =
      (List.range rs.length).map (fun j : ℕ => i + (j : Int)) := by
  intro rs
  induction rs with
  | nil => intro i; rfl
  | cons r rest ih =>
    intro i
    simp only [mkImagesFrom, List.map_cons, ih, List.length_cons,
      List.range_succ_eq_map, List.map_map]
    refine List.cons_eq_cons.mpr ⟨?_, ?_⟩
    · show i = i + ((0 : ℕ) : Int)
      simp
    · refine List.map_congr_left (fun j hj => ?_)
      show (i + 1) + (j : Int) = i + ((j + 1 : ℕ) : Int)
      push_cast
      ring

theorem mkCategories_length (labels : List String) :
    (mkCategories labels).length = labels.length := by
  simp [mkCategories, List.enum_length]

theorem mkCategories_get? (labels : List String) (j : ℕ) :
    (mkCategories labels).get? j =
      (labels.get? j).map
        (fun l => { id := (j : Int) + 1, name := l, supercategory := "" }) := by
  rw [mkCategories, List.get?_map, List.get?_enum, Option.map_map]
  rfl

theorem mkCategories_ids (labels : List String) :
    (mkCategories labels).map Category.id =
      (List.range labels.length).map (fun j : ℕ => (j : Int) + 1) := by
  apply List.ext
  intro n
  rw [List.get?_map, mkCategories_get?, Option.map_map, List.get?_map]
  by_cases hn : n < labels.length
  · rw [List.get?_eq_get hn, List.get?_range hn]
    rfl
  · rw [List.get?_eq_none.mpr (by omega), List.get?_eq_none.mpr (by simpa using hn)]
    rfl

theorem annsFrom_ids : ∀ (rs : List YoloResult) (i : Int),
    (∀ j (hj : j < rs.length),
      (annotsGo (rs.get ⟨j, hj⟩).obb.cls (i + j) 1 (rs.get ⟨j, hj⟩).obb.xywhr).isSome
        = true) →
    (annsFrom i rs).map Annot.id =
      (rs.map (fun r =>
        (List.range r.obb.xywhr.length).map (fun j : ℕ => 1 + (j : Int)))).join := by
  intro rs
  induction rs with
  | nil => intro i _; rfl
  | cons r rest ih =>
    intro i hsucc
    have h₀ := hsucc 0 (by simp)
    simp only [List.get, Nat.cast_zero, add_zero] at h₀
    cases hgo : annotsGo r.obb.cls i 1 r.obb.xywhr with
    | none => rw [hgo] at h₀; simp at h₀
    | some as =>
      have htail : ∀ j (hj : j < rest.length),
          (annotsGo (rest.get ⟨j, hj⟩).obb.cls ((i + 1) + j) 1
            (rest.get ⟨j, hj⟩).obb.xywhr).isSome = true := by
        intro j hj
        have := hsucc (j + 1) (by simp only [List.length_cons]; omega)
        have harith : i + ((j + 1 : ℕ) : Int) = (i + 1) + (j : Int) := by
          push_cast
          ring
        rw [show ((r :: rest).get ⟨j + 1, _⟩) = rest.get ⟨j, hj⟩ from rfl, harith] at this
        exact this
      simp only [annsFrom, hgo, Option.getD_some, List.map_append, List.map_cons,
        List.join_cons, ih (i + 1) htail]
      rw [annotsGo_ids r.obb.cls i r.obb.xywhr 1 as hgo]

/-! ### Concrete inputs used by witnesses and counterexamples -/

/-- A sample detection: one box of class 0. -/
def predOneBox : PredOut :=
  { orig_shape := (480, 640), obb := { cls := [0], xywhr := [⟨10, 20, 4, 6, 0⟩] } }

/-- A baseline configuration: both optional outputs off. -/
def constsBase : Constants :=
  { model_path := "model.pt", images_path := "imgs", save_anns_path := none,
    labels := ["plane", "ship"], save_image := false, save_txt := false }

/-- Two images, one detected box each; everything on disk exists. -/
def envTwo : Env :=
  { consts := constsBase, path_exists := fun _ => true,
    listdir := ["b.jpg", "a.jpg"], isfile := fun _ => true,
    predictOne := fun _ => predOneBox }

/-- An images directory with no images. -/
def envEmpty : Env :=
  { consts := constsBase, path_exists := fun _ => true, listdir := [],
    isfile := fun _ => true, predictOne := fun _ => predOneBox }

/-- Nothing on disk exists: the first check raises. -/
def envNoModel : Env :=
  { consts := constsBase, path_exists := fun _ => false, listdir := [],
    isfile := fun _ => false, predictOne := fun _ => predOneBox }

/-- The record `calculate_bbox` builds for box (3, 4, 10, 6, 1) of class 2. -/
noncomputable def aC1 : Annot :=
  { id := 1, image_id := 1, category_id := pyInt 2 + 1, segm := [], area := 10 * 6,
    bbox := [3 - 10 / 2, 4 - 6 / 2, 10, 6], iscrowd := 0,
    attrs := { occluded := false, rotation := math_degrees 1 } }

/-- The document produced by the `envTwo` run. -/
noncomputable def docTwo : List (String × DocVal) :=
  buildDoc envTwo.consts.labels (mainLoop envTwo).2.1 (mainLoop envTwo).2.2.1

theorem mem_docTwo : Event.writeJson json_file_path docTwo ∈ main envTwo :=
  (writeJson_mem_iff envTwo json_file_path docTwo).mpr ⟨rfl, rfl, rfl, rfl⟩

/-! ### The claims -/

/-- Claim C1: for an oriented box whose xywhr values are (x, y, w, h, r), the
record returned by `calculate_bbox` has bbox `[x - w/2, y - h/2, w, h]` and
rotation attribute `r` converted from radians to degrees. -/
theorem claim1_calculate_bbox (bbox_id img_id : Int) (cls : List ℚ) (b : XYWHR)
    (a : Annot) (h : calculate_bbox bbox_id img_id cls b = some a) :
    a.bbox = [b.x - b.w / 2, b.y - b.h / 2, b.w, b.h] ∧
      a.attrs.rotation = (b.r : ℝ) * (180 / Real.pi) := by
  simp only [calculate_bbox] at h
  cases hpg : pyGet cls (bbox_id - 1) with
  | none => rw [hpg] at h; exact absurd h (by simp)
  | some lab =>
    rw [hpg] at h
    simp only [Option.some.injEq] at h
    subst h
    exact ⟨rfl, rfl⟩

/-- Witness for C1 at the box (3, 4, 10, 6, 1) of class 2. -/
theorem claim1_witness :
    aC1.bbox = [3 - 10 / 2, 4 - 6 / 2, (10 : ℚ), 6] ∧
      aC1.attrs.rotation = ((1 : ℚ) : ℝ) * (180 / Real.pi) :=
  claim1_calculate_bbox 1 1 [2] ⟨3, 4, 10, 6, 1⟩ aC1 rfl

/-- Counterexample to C2 as stated: in the `envTwo` run the written document
has two annotation records, one per image, and both carry id 1, so ids are
not unique within the top-level annotations list. -/
theorem claim2_cex :
    (writtenDocs (main envTwo)).map (fun d => (annsOfDoc d).map Annot.id)
        = [[1, 1]] ∧
      ¬ ((annsOfDoc ((writtenDocs (main envTwo)).getD 0 [])).map Annot.id).Nodup := by
  refine ⟨rfl, ?_⟩
  have h : (annsOfDoc ((writtenDocs (main envTwo)).getD 0 [])).map Annot.id
      = [1, 1] := rfl
  rw [h]
  decide

/-- Claim C2 (amended): in the written document, category ids and image ids
are unique within their lists and sequential (the id lists are exactly
1, 2, ..., n); annotation ids are sequential starting from 1 within each
image's block of records, but restart for every image, so they repeat in the
top-level annotations list whenever more than one image has detections. -/
theorem claim2_amended (env : Env) (p : String) (d : List (String × DocVal))
    (h : Event.writeJson p d ∈ main env) :
    ((catsOfDoc d).map Category.id).Nodup ∧
    (catsOfDoc d).map Category.id =
      (List.range (catsOfDoc d).length).map (fun j : ℕ => (j : Int) + 1) ∧
    ((imgsOfDoc d).map CocoImage.id).Nodup ∧
    (imgsOfDoc d).map CocoImage.id =
      (List.range (imgsOfDoc d).length).map (fun j : ℕ => 1 + (j : Int)) ∧
    (annsOfDoc d).map Annot.id =
      ((results env).map (fun r =>
        (List.range r.obb.xywhr.length).map (fun j : ℕ => 1 + (j : Int)))).join := by
  obtain ⟨hok, hr, hp, hd⟩ := (writeJson_mem_iff env p d).mp h
  subst hd
  rw [catsOfDoc_buildDoc, imgsOfDoc_buildDoc, annsOfDoc_buildDoc]
  have himgs : (mainLoop env).2.1 = mkImagesFrom 1 (results env) :=
    loop_imgs env.consts (results env) 1 hr
  refine ⟨?_, ?_, ?_, ?_, ?_⟩
  · rw [mkCategories_ids]
    exact (List.nodup_range _).map (fun a b hab => by omega)
  · rw [mkCategories_length, mkCategories_ids]
  · rw [himgs, mkImagesFrom_ids]
    exact (List.nodup_range _).map (fun a b hab => by omega)
  · rw [himgs, mkImagesFrom_length, mkImagesFrom_ids]
  · rw [show (mainLoop env).2.2.1 = annsFrom 1 (results env) from
      loop_anns env.consts (results env) 1 hr]
    exact annsFrom_ids (results env) 1 (loop_success env.consts (results env) 1 hr)

/-- Witness for the amended C2 on the `envTwo` run. -/
theorem claim2_witness :
    ((catsOfDoc docTwo).map Category.id).Nodup ∧
    (catsOfDoc docTwo).map Category.id =
      (List.range (catsOfDoc docTwo).length).map (fun j : ℕ => (j : Int) + 1) ∧
    ((imgsOfDoc docTwo).map CocoImage.id).Nodup ∧
    (imgsOfDoc docTwo).map CocoImage.id =
      (List.range (imgsOfDoc docTwo).length).map (fun j : ℕ => 1 + (j : Int)) ∧
    (annsOfDoc docTwo).map Annot.id =
      ((results envTwo).map (fun r =>
        (List.range r.obb.xywhr.length).map (fun j : ℕ => 1 + (j : Int)))).join :=
  claim2_amended envTwo json_file_path docTwo mem_docTwo

theorem mkCategories_names (labels : List String) :
    (mkCategories labels).map Category.name = labels := by
  apply List.ext
  intro n
  rw [List.get?_map, mkCategories_get?, Option.map_map]
  cases labels.get? n <;> rfl

/-- Claim C3: category ids are 1-based sequential in enumeration order of the
configured labels, image ids are 1-based sequential in enumeration order of
the results, and annotation ids restart at 1 and increase by 1 inside each
image's block. -/
theorem claim3_ids (env : Env) (p : String) (d : List (String × DocVal))
    (h : Event.writeJson p d ∈ main env) :
    (catsOfDoc d).map Category.id =
      (List.range env.consts.labels.length).map (fun j : ℕ => (j : Int) + 1) ∧
    (catsOfDoc d).map Category.name = env.consts.labels ∧
    (imgsOfDoc d).map CocoImage.id =
      (List.range (results env).length).map (fun j : ℕ => 1 + (j : Int)) ∧
    (annsOfDoc d).map Annot.id =
      ((results env).map (fun r =>
        (List.range r.obb.xywhr.length).map (fun j : ℕ => 1 + (j : Int)))).join := by
  obtain ⟨hok, hr, hp, hd⟩ := (writeJson_mem_iff env p d).mp h
  subst hd
  rw [catsOfDoc_buildDoc, imgsOfDoc_buildDoc, annsOfDoc_buildDoc]
  refine ⟨mkCategories_ids _, mkCategories_names _, ?_, ?_⟩
  · rw [show (mainLoop env).2.1 = mkImagesFrom 1 (results env) from
      loop_imgs env.consts (results env) 1 hr, mkImagesFrom_ids]
  · rw [show (mainLoop env).2.2.1 = annsFrom 1 (results env) from
      loop_anns env.consts (results env) 1 hr]
    exact annsFrom_ids (results env) 1 (loop_success env.consts (results env) 1 hr)

/-- Witness for C3 on the `envTwo` run. -/
theorem claim3_witness :
    (catsOfDoc docTwo).map Category.id =
      (List.range envTwo.consts.labels.length).map (fun j : ℕ => (j : Int) + 1) ∧
    (catsOfDoc docTwo).map Category.name = envTwo.consts.labels ∧
    (imgsOfDoc docTwo).map CocoImage.id =
      (List.range (results envTwo).length).map (fun j : ℕ => 1 + (j : Int)) ∧
    (annsOfDoc docTwo).map Annot.id =
      ((results envTwo).map (fun r =>
        (List.range r.obb.xywhr.length).map (fun j : ℕ => 1 + (j : Int)))).join :=
  claim3_ids envTwo json_file_path docTwo mem_docTwo

/-- Claim C4: whenever `main` completes without raising, the document is
written to `instances.json` in the current directory — the configured save
path is never the output location. -/
theorem claim4_output_path (env : Env) (h : completedOk (main env) = true) :
    (∃ d, Event.writeJson json_file_path d ∈ main env) ∧
    (∀ p d, Event.writeJson p d ∈ main env → p = json_file_path) ∧
    json_file_path = "./instances.json" := by
  obtain ⟨hok, hr⟩ := (completedOk_main_iff env).mp h
  refine ⟨⟨_, (writeJson_mem_iff env json_file_path _).mpr ⟨hok, hr, rfl, rfl⟩⟩,
    ?_, rfl⟩
  intro p d hmem
  exact ((writeJson_mem_iff env p d).mp hmem).2.2.1

/-- Witness for C4: the `envEmpty` run completes and writes to
`./instances.json`. -/
theorem claim4_witness :
    completedOk (main envEmpty) = true ∧
      ((∃ d, Event.writeJson json_file_path d ∈ main envEmpty) ∧
       (∀ p d, Event.writeJson p d ∈ main envEmpty → p = json_file_path) ∧
       json_file_path = "./instances.json") :=
  ⟨rfl, claim4_output_path envEmpty rfl⟩

/-- Claim C5: the written document has exactly the keys licenses, info,
categories, images, annotations; licenses and info are the fixed metadata;
categories has one record per configured label, images one per result, and
annotations one per detected oriented box across all results. -/
theorem claim5_doc_shape (env : Env) (p : String) (d : List (String × DocVal))
    (h : Event.writeJson p d ∈ main env) :
    d.map Prod.fst = ["licenses", "info", "categories", "images", "annotations"] ∧
    dictGet d "licenses" = some (DocVal.licenses [{ name := "", id := 0, url := "" }]) ∧
    dictGet d "info" = some (DocVal.info
      { contributor := "", date_created := "", descr := "",
        url := "", version := "", year := "" }) ∧
    (catsOfDoc d).length = env.consts.labels.length ∧
    (imgsOfDoc d).length = (results env).length ∧
    (annsOfDoc d).length = ((results env).map (fun r => r.obb.xywhr.length)).sum := by
  obtain ⟨hok, hr, hp, hd⟩ := (writeJson_mem_iff env p d).mp h
  subst hd
  refine ⟨rfl, rfl, rfl, ?_, ?_, ?_⟩
  · rw [catsOfDoc_buildDoc]
    exact mkCategories_length _
  · rw [imgsOfDoc_buildDoc, show (mainLoop env).2.1 = mkImagesFrom 1 (results env)
      from loop_imgs env.consts (results env) 1 hr]
    exact mkImagesFrom_length _ _
  · rw [annsOfDoc_buildDoc]
    have hids : (mainLoop env).2.2.1.map Annot.id =
        ((results env).map (fun r =>
          (List.range r.obb.xywhr.length).map (fun j : ℕ => 1 + (j : Int)))).join := by
      rw [show (mainLoop env).2.2.1 = annsFrom 1 (results env) from
        loop_anns env.consts (results env) 1 hr]
      exact annsFrom_ids (results env) 1 (loop_success env.consts (results env) 1 hr)
    have hlen := congrArg List.length hids
    simp only [List.length_map] at hlen
    rw [hlen, List.length_join, List.map_map]
    simp only [Function.comp_def, List.length_map, List.length_range]

/-- Witness for C5 on the `envTwo` run. -/
theorem claim5_witness :
    docTwo.map Prod.fst = ["licenses", "info", "categories", "images", "annotations"] ∧
    dictGet docTwo "licenses" = some (DocVal.licenses [{ name := "", id := 0, url := "" }]) ∧
    dictGet docTwo "info" = some (DocVal.info
      { contributor := "", date_created := "", descr := "",
        url := "", version := "", year := "" }) ∧
    (catsOfDoc docTwo).length = envTwo.consts.labels.length ∧
    (imgsOfDoc docTwo).length = (results envTwo).length ∧
    (annsOfDoc docTwo).length =
      ((results envTwo).map (fun r => r.obb.xywhr.length)).sum :=
  claim5_doc_shape envTwo json_file_path docTwo mem_docTwo

/-- Claim C6: when the configured model path or images path does not exist,
`main` raises `FileNotFoundError` before the detector is constructed, before
prediction, and before any output file or directory is created: the whole
trace is the single raise event. -/
theorem claim6_missing_paths (env : Env)
    (h : env.path_exists env.consts.model_path = false ∨
         env.path_exists env.consts.images_path = false) :
    (main env = [Event.raiseFNF
        ("Model path not found: " ++ env.consts.model_path ++ " was not found")] ∨
     main env = [Event.raiseFNF
        ("Images path not found: " ++ env.consts.images_path ++ " was not found")]) ∧
    ∀ e ∈ main env, ∃ m, e = Event.raiseFNF m := by
  cases h₁ : env.path_exists env.consts.model_path with
  | false =>
    refine ⟨Or.inl (main_model_missing env h₁), ?_⟩
    intro e he
    rw [main_model_missing env h₁] at he
    simp only [List.mem_singleton] at he
    exact ⟨_, he⟩
  | true =>
    have h₂ : env.path_exists env.consts.images_path = false := by
      rcases h with h | h
      · rw [h₁] at h
        exact absurd h (by simp)
      · exact h
    refine ⟨Or.inr (main_images_missing env h₁ h₂), ?_⟩
    intro e he
    rw [main_images_missing env h₁ h₂] at he
    simp only [List.mem_singleton] at he
    exact ⟨_, he⟩

/-- Witness for C6: with nothing on disk, the run is the single model-path
raise. -/
theorem claim6_witness :
    (main envNoModel = [Event.raiseFNF
        ("Model path not found: " ++ envNoModel.consts.model_path ++ " was not found")] ∨
     main envNoModel = [Event.raiseFNF
        ("Images path not found: " ++ envNoModel.consts.images_path ++ " was not found")]) ∧
    ∀ e ∈ main envNoModel, ∃ m, e = Event.raiseFNF m :=
  claim6_missing_paths envNoModel (Or.inl rfl)

/-- Claim C7: the image record for the i-th prediction result (1-based,
0-based index `i` here) has id `i + 1`, width the second and height the first
component of the result's original shape, and file_name the base name of the
result's path. -/
theorem claim7_image_record (env : Env) (p : String) (d : List (String × DocVal))
    (h : Event.writeJson p d ∈ main env) (i : ℕ) (hi : i < (results env).length) :
    (imgsOfDoc d).get? i =
      some { id := 1 + (i : Int),
             width := ((results env).get ⟨i, hi⟩).orig_shape.2,
             height := ((results env).get ⟨i, hi⟩).orig_shape.1,
             file_name := os_path_basename ((results env).get ⟨i, hi⟩).path,
             license := 0, flickr_url := "", coco_url := "", date_captured := 0 } := by
  obtain ⟨hok, hr, hp, hd⟩ := (writeJson_mem_iff env p d).mp h
  subst hd
  rw [imgsOfDoc_buildDoc, show (mainLoop env).2.1 = mkImagesFrom 1 (results env) from
    loop_imgs env.consts (results env) 1 hr, mkImagesFrom_get?, List.get?_eq_get hi]
  rfl

/-- Witness for C7: in the `envTwo` run the first image record is
(id 1, 640x480, "a.jpg"). -/
theorem claim7_witness :
    (imgsOfDoc docTwo).get? 0 =
      some { id := 1 + ((0 : ℕ) : Int), width := 640, height := 480,
             file_name := "a.jpg", license := 0, flickr_url := "", coco_url := "",
             date_captured := 0 } :=
  claim7_image_record envTwo json_file_path docTwo mem_docTwo 0 (by decide)

/-- Claim C8: exactly the regular files directly inside images_path whose
names pass the case-insensitive jpg/jpeg/png filter are selected; the
selected full paths are processed in lexicographically sorted order, and the
i-th result is the prediction on the i-th sorted path. -/
theorem claim8_image_selection (env : Env) :
    (∀ p, p ∈ images_paths env ↔ ∃ name, name ∈ env.listdir ∧
        p = os_path_join env.consts.images_path name ∧
        env.isfile p = true ∧ hasImgExt name = true) ∧
    List.Sorted (· ≤ ·) (images_paths env) ∧
    (results env).length = (images_paths env).length ∧
    (∀ i (hi : i < (results env).length) (hi' : i < (images_paths env).length),
      ((results env).get ⟨i, hi⟩).path = (images_paths env).get ⟨i, hi'⟩) := by
  refine ⟨?_, ?_, ?_, ?_⟩
  · intro p
    rw [images_paths, List.mem_insertionSort, List.mem_filterMap]
    constructor
    · rintro ⟨name, hmem, hf⟩
      by_cases hc : env.isfile (os_path_join env.consts.images_path name)
          && hasImgExt name
      · rw [if_pos hc] at hf
        simp only [Option.some.injEq] at hf
        subst hf
        rcases Bool.and_eq_true _ _ |>.mp hc with ⟨h₁, h₂⟩
        exact ⟨name, hmem, rfl, h₁, h₂⟩
      · rw [if_neg hc] at hf
        exact absurd hf (by simp)
    · rintro ⟨name, hmem, hp, hfile, hext⟩
      refine ⟨name, hmem, ?_⟩
      subst hp
      rw [if_pos (by rw [hfile, hext]; rfl)]
  · unfold images_paths
    exact (List.sorted_insertionSort _ _).imp (fun hab => (strLeB_iff _ _).mp hab)
  · simp [results]
  · intro i hi hi'
    simp [results, mkResult]

/-- Both optional outputs on, save path configured to an existing directory. -/
def constsFlags : Constants :=
  { model_path := "model.pt", images_path := "imgs", save_anns_path := some "out",
    labels := ["plane"], save_image := true, save_txt := true }

/-- One image, both optional outputs on. -/
def envFlags : Env :=
  { consts := constsFlags, path_exists := fun _ => true, listdir := ["a.jpg"],
    isfile := fun _ => true, predictOne := fun _ => predOneBox }

/-- Claim C9: annotated images are written under `predictions/images` iff the
save_image flag is set, per-image label files are written under
`predictions/annotations` iff the save_annotation flag is set, and with both
flags off the only write effect is the JSON dump. -/
theorem claim9_save_flags (env : Env) (h : completedOk (main env) = true) :
    ((∃ p, Event.saveImage p ∈ main env) → env.consts.save_image = true) ∧
    (env.consts.save_image = true → ∀ r ∈ results env,
      Event.saveImage (os_path_join save_image_path (os_path_basename r.path)) ∈
        main env) ∧
    ((∃ p, Event.saveTxt p ∈ main env) → env.consts.save_txt = true) ∧
    (env.consts.save_txt = true → ∀ r ∈ results env,
      Event.saveTxt (os_path_join save_txt_file_path
        (splitextRoot (os_path_basename r.path) ++ ".txt")) ∈ main env) ∧
    (env.consts.save_image = false → env.consts.save_txt = false →
      ∀ e ∈ main env, e.isWrite = true → ∃ d, e = Event.writeJson json_file_path d) := by
  obtain ⟨hok, hr⟩ := (completedOk_main_iff env).mp h
  have hbody := main_eq_body env hok
  refine ⟨?_, ?_, ?_, ?_, ?_⟩
  · rintro ⟨p, hp⟩
    rw [hbody] at hp
    simp only [mainBody, List.mem_append] at hp
    rcases hp with (((hp | hp) | hp) | hp) | hp
    · split at hp <;> simp at hp
    · split at hp <;> simp at hp
    · simp at hp
    · exact loop_saveImage_flag env.consts (results env) 1 p hp
    · split at hp <;> simp at hp
  · intro hflag r hmem
    rw [hbody]
    simp only [mainBody, List.mem_append]
    exact Or.inl (Or.inr (loop_mem_saveImage env.consts hflag (results env) 1 r hmem hr))
  · rintro ⟨p, hp⟩
    rw [hbody] at hp
    simp only [mainBody, List.mem_append] at hp
    rcases hp with (((hp | hp) | hp) | hp) | hp
    · split at hp <;> simp at hp
    · split at hp <;> simp at hp
    · simp at hp
    · exact loop_saveTxt_flag env.consts (results env) 1 p hp
    · split at hp <;> simp at hp
  · intro hflag r hmem
    rw [hbody]
    simp only [mainBody, List.mem_append]
    exact Or.inl (Or.inr (loop_mem_saveTxt env.consts hflag (results env) 1 r hmem hr))
  · intro hsi hst e he hw
    rw [hbody] at he
    simp only [mainBody, List.mem_append] at he
    rcases he with (((he | he) | he) | he) | he
    · rw [hsi] at he
      simp at he
    · rw [hst] at he
      simp at he
    · rcases List.mem_cons.mp he with he | he
      · subst he
        simp [Event.isWrite] at hw
      · simp only [List.mem_singleton] at he
        subst he
        simp [Event.isWrite] at hw
    · rcases loop_events_kinds env.consts (results env) 1 e he with ⟨q, hq⟩ | ⟨q, hq⟩ | hq
      · subst hq
        exact absurd (loop_saveImage_flag env.consts (results env) 1 q he)
          (by rw [hsi]; simp)
      · subst hq
        exact absurd (loop_saveTxt_flag env.consts (results env) 1 q he)
          (by rw [hst]; simp)
      · subst hq
        simp [Event.isWrite] at hw
    · split at he
      · simp at he
      · simp only [List.mem_singleton] at he
        subst he
        exact ⟨_, rfl⟩

/-- Witness for C9: in the `envFlags` run the annotated copy of a.jpg is
written under `predictions/images`. -/
theorem claim9_witness :
    Event.saveImage "./predictions/images/a.jpg" ∈ main envFlags :=
  (claim9_save_flags envFlags rfl).2.1 rfl
    (mkResult (os_path_join "imgs" "a.jpg") predOneBox) (by decide)

/-- Claim C10: for a prediction result whose class list and box list have
equal length, the label index `bbox_id - 1` used by `calculate_bbox` is in
bounds for every emitted record; each record's category_id is the integer
class value at that index plus one, which matches the id (and 1-based
position) of the corresponding record of the categories list whenever the
class value indexes into the configured labels. -/
theorem claim10_category_ids (r : YoloResult) (imgId : Int) (labels : List String)
    (hlen : r.obb.cls.length = r.obb.xywhr.length) :
    ∃ as, annotsGo r.obb.cls imgId 1 r.obb.xywhr = some as ∧
      as.length = r.obb.xywhr.length ∧
      ∀ j (hj : j < as.length),
        ∃ c, r.obb.cls.get? j = some c ∧
          (as.get ⟨j, hj⟩).category_id = pyInt c + 1 ∧
          ∀ (hc0 : 0 ≤ pyInt c) (hc : (pyInt c).toNat < labels.length),
            (mkCategories labels).get? (pyInt c).toNat =
              some { id := pyInt c + 1, name := labels.get ⟨(pyInt c).toNat, hc⟩,
                     supercategory := "" } := by
  have hsome := annotsGo_isSome r.obb.cls imgId r.obb.xywhr 1 (by omega)
    (by simp only [show ((1 : Int) - 1).toNat = 0 from rfl, Nat.zero_add]; omega)
  cases hgo : annotsGo r.obb.cls imgId 1 r.obb.xywhr with
  | none => rw [hgo] at hsome; simp at hsome
  | some as =>
    refine ⟨as, rfl, (annotsGo_some r.obb.cls imgId r.obb.xywhr 1 as hgo).1, ?_⟩
    intro j hj
    obtain ⟨c, hc₁, hc₂⟩ := annotsGo_cat r.obb.cls imgId r.obb.xywhr 1 as
      (by omega) hgo j hj
    rw [show ((1 : Int) - 1).toNat + j = j by omega] at hc₁
    refine ⟨c, hc₁, hc₂, ?_⟩
    intro hc0 hc
    rw [mkCategories_get?, List.get?_eq_get hc]
    have heq : (((pyInt c).toNat : ℕ) : Int) + 1 = pyInt c + 1 := by omega
    simp only [Option.map_some']
    rw [heq]

/-- A two-box result with classes 0 and 1. -/
def rTwoBox : YoloResult :=
  { path := "x.jpg", orig_shape := (10, 20),
    obb := { cls := [0, 1], xywhr := [⟨1, 2, 3, 4, 0⟩, ⟨5, 6, 7, 8, 0⟩] } }

/-- Witness for C10 on the two-box result. -/
theorem claim10_witness :
    ∃ as, annotsGo rTwoBox.obb.cls 7 1 rTwoBox.obb.xywhr = some as ∧
      as.length = rTwoBox.obb.xywhr.length ∧
      ∀ j (hj : j < as.length),
        ∃ c, rTwoBox.obb.cls.get? j = some c ∧
          (as.get ⟨j, hj⟩).category_id = pyInt c + 1 ∧
          ∀ (hc0 : 0 ≤ pyInt c)
            (hc : (pyInt c).toNat < (["plane", "ship"] : List String).length),
            (mkCategories ["plane", "ship"]).get? (pyInt c).toNat =
              some { id := pyInt c + 1,
                     name := (["plane", "ship"] : List String).get ⟨(pyInt c).toNat, hc⟩,
                     supercategory := "" } :=
  claim10_category_ids rTwoBox 7 ["plane", "ship"] (by decide)

end Yolo2Coco
